import Mathlib

/-!
Shallow embedding of `download.py` from BBCSoundDownloader.

Strings are modelled as `List Char`.  The module embeds, from the source:

* `Downloader.sanitize_path`  (regex substitution + `strip`)
* `Downloader.get_samples`    (catalog reader: URL and destination-path
  construction, skip-if-exists)
* `Downloader.download`       (per-item fetch/extract/rename with a
  `try/except` boundary), with the fallible external operations
  (mkdir, urlretrieve, ZipFile, extract, rename) supplied as an
  explicit environment of `Except` results and the performed
  filesystem operations recorded as a trace
* the `ThreadPool.map` aggregation of `download_all`
* an interleaving machine for the unsynchronized `finished += 1`
  counter updates performed by worker threads.
-/

namespace BBC

/-- A character matched by Python's `\w` in `r'[^\w\-&,()\. ]'`:
alphanumerics and the underscore.  (Python's Unicode `\w` additionally
keeps non-ASCII word characters; the model covers the ASCII range.) -/
def isWordChar (c : Char) : Bool := c.isAlphanum || c = '_'

/-- A character kept (not replaced) by the regex substitution in
`sanitize_path`: `\w`, hyphen, ampersand, comma, parentheses, period, space. -/
def isKeptChar (c : Char) : Bool :=
  isWordChar c || c = '-' || c = '&' || c = ',' ||
    c = '(' || c = ')' || c = '.' || c = ' '

/-- One character of `re.sub(r'[^\w\-&,()\. ]', '_', s)`: a kept character
is unchanged, anything else becomes an underscore. -/
def subChar (c : Char) : Char := if isKeptChar c then c else '_'

/-- Whitespace as stripped by Python's `str.strip()` (ASCII range):
space, tab, newline, carriage return, vertical tab, form feed. -/
def pyIsSpace (c : Char) : Bool :=
  c = ' ' || c = '\t' || c = '\n' || c = '\r' || c.toNat = 11 || c.toNat = 12

/-- Python `str.strip()`: drop leading and trailing whitespace. -/
def pyStrip (l : List Char) : List Char :=
  ((l.dropWhile pyIsSpace).reverse.dropWhile pyIsSpace).reverse

/-- `Downloader.sanitize_path`:
`re.sub(r'[^\w\-&,()\. ]', '_', path_str).strip()`. -/
def sanitize_path (l : List Char) : List Char :=
  pyStrip (l.map subChar)

/-- `MAX_FILENAME_LENGTH = 143` (module-level constant). -/
def MAX_FILENAME_LENGTH : Nat := 143

/-- `wav_suffix = '.wav'` in `get_samples`. -/
def wav_suffix : List Char := ".wav".toList

/-- `max_description_length = MAX_FILENAME_LENGTH - len(wav_suffix)`. -/
def max_description_length : Nat := MAX_FILENAME_LENGTH - wav_suffix.length

/-- One row of `BBCSoundEffects.csv`, with the fields `get_samples` reads. -/
structure CatalogRecord where
  location : List Char
  description : List Char
  CDName : List Char

/-- One element of the `samples` list: the `(url, final_wav_path)` tuple. -/
structure WorkItem where
  url : List Char
  final_wav_path : List Char
deriving DecidableEq

/-- `description = self.sanitize_path(row['description'])[:max_description_length]`. -/
def descriptionOf (row : CatalogRecord) : List Char :=
  (sanitize_path row.description).take max_description_length

/-- `filename = description + wav_suffix`. -/
def filenameOf (row : CatalogRecord) : List Char :=
  descriptionOf row ++ wav_suffix

/-- `final_wav_path = Path('sounds') / row['location']` (POSIX join of the
fixed root with the raw location). -/
def destPath (loc : List Char) : List Char :=
  "sounds/".toList ++ loc

/-- The URL built in `get_samples`:
`"https://sound-effects-media.bbcrewind.co.uk/zip/" + location_zip
 + "?download&rename=" + row['location']` with
`location_zip = row['location'] + ".zip"`. -/
def makeURL (loc : List Char) : List Char :=
  "https://sound-effects-media.bbcrewind.co.uk/zip/".toList
    ++ (loc ++ ".zip".toList)
    ++ "?download&rename=".toList
    ++ loc

/-- The body of the `for row in reader` loop of `get_samples` for one row,
parameterized by the filesystem `exists` test on paths: `none` when the
row is skipped (`final_wav_path.exists()`), otherwise the emitted
`(url, final_wav_path)` work item.  The `folder` and `rename_part`
bindings mirror the source; they do not flow into the result. -/
def processRow (exists_ : List Char → Bool) (row : CatalogRecord) :
    Option WorkItem :=
  let folder := sanitize_path row.CDName
  let description := descriptionOf row
  let _filename := filenameOf row
  let final_wav_path := destPath row.location
  if exists_ final_wav_path then
    none
  else
    let rename_part :=
      sanitize_path ("BBC_".toList ++ folder ++ "_".toList ++ description
        ++ ".wav".toList)
    let _ := rename_part
    some ⟨makeURL row.location, final_wav_path⟩

/-- `Downloader.get_samples`: fold `processRow` over the catalog rows in
order, collecting the emitted work items. -/
def get_samples (exists_ : List Char → Bool) (rows : List CatalogRecord) :
    List WorkItem :=
  rows.filterMap (processRow exists_)

/-- A Python exception value, as caught by `except Exception as e`. -/
inductive PyErr where
  | OSError (msg : List Char)
  | URLError (msg : List Char)
  | BadZip (msg : List Char)
  | RuntimeError (msg : List Char)
deriving DecidableEq

/-- The message of the `RuntimeError` raised when the archive holds no WAV. -/
def noWavMsg : List Char := "No WAV found in downloaded zip".toList

/-- The outcomes of the external operations `download` performs, in order:
`mkdir(parents=True, exist_ok=True)`, `urllib.request.urlretrieve` (returning
the temp file path), `zipfile.ZipFile(...).namelist()` on that path,
`zf.extract` on a member (returning the extracted path), and
`Path.rename`.  Each may raise, modelled as `Except PyErr`. -/
structure DownloadEnv where
  mkdirResult : Except PyErr Unit
  retrieveResult : Except PyErr (List Char)
  namelistResult : List Char → Except PyErr (List (List Char))
  extractResult : List Char → Except PyErr (List Char)
  renameResult : List Char → List Char → Except PyErr Unit

/-- A filesystem operation completed by `download`, recorded in order. -/
inductive FsEffect where
  | mkdirParents (dir : List Char)
  | extractMember (member : List Char) (dir : List Char)
  | renameFile (src : List Char) (dst : List Char)
deriving DecidableEq

/-- The `(success, filepath, exc)` tuple returned by `Downloader.download`. -/
structure Outcome where
  success : Bool
  filepath : Option (List Char)
  exc : Option PyErr
deriving DecidableEq

/-- `Path.parent`: everything before the last slash. -/
def parentDir (p : List Char) : List Char :=
  ((p.reverse.dropWhile (fun c => !(c = '/'))).drop 1).reverse

/-- `m.lower().endswith('.wav')`. -/
def lowerEndsWithWav (m : List Char) : Bool :=
  List.isSuffixOf (".wav".toList) (m.map Char.toLower)

/-- `wav_members = [m for m in zf.namelist() if m.lower().endswith('.wav')]`. -/
def wavMembersOf (names : List (List Char)) : List (List Char) :=
  names.filter lowerEndsWithWav

/-- `Downloader.download`: the body of the `try` block, with the `except`
clause producing the `(False, final_wav_path, e)` tuple on any raised
exception and the success path producing `(True, None, None)`.  The second
component records the filesystem operations that completed. -/
def download (env : DownloadEnv) (sample : WorkItem) :
    Outcome × List FsEffect :=
  match env.mkdirResult with
  | .error e => (⟨false, some sample.final_wav_path, some e⟩, [])
  | .ok _ =>
    match env.retrieveResult with
    | .error e =>
      (⟨false, some sample.final_wav_path, some e⟩,
        [.mkdirParents (parentDir sample.final_wav_path)])
    | .ok temp_zip_path =>
      match env.namelistResult temp_zip_path with
      | .error e =>
        (⟨false, some sample.final_wav_path, some e⟩,
          [.mkdirParents (parentDir sample.final_wav_path)])
      | .ok names =>
        match wavMembersOf names with
        | [] =>
          (⟨false, some sample.final_wav_path, some (.RuntimeError noWavMsg)⟩,
            [.mkdirParents (parentDir sample.final_wav_path)])
        | w :: _ =>
          match env.extractResult w with
          | .error e =>
            (⟨false, some sample.final_wav_path, some e⟩,
              [.mkdirParents (parentDir sample.final_wav_path)])
          | .ok extracted_wav_name =>
            match env.renameResult extracted_wav_name sample.final_wav_path with
            | .error e =>
              (⟨false, some sample.final_wav_path, some e⟩,
                [.mkdirParents (parentDir sample.final_wav_path),
                  .extractMember w (parentDir sample.final_wav_path)])
            | .ok _ =>
              (⟨true, none, none⟩,
                [.mkdirParents (parentDir sample.final_wav_path),
                  .extractMember w (parentDir sample.final_wav_path),
                  .renameFile extracted_wav_name sample.final_wav_path])

/-- `results = ThreadPool(...).map(self.download, self.samples)`:
`Pool.map` returns one result per input, in input order. -/
def resultsOf (env : WorkItem → DownloadEnv) (samples : List WorkItem) :
    List Outcome :=
  samples.map (fun s => (download (env s) s).1)

/-- The outcomes reported as failures by `download_all`
(`for success, filepath, exc in results: if not success: print(...)`),
in the order of `results`. -/
def failedResults (env : WorkItem → DownloadEnv) (samples : List WorkItem) :
    List Outcome :=
  (resultsOf env samples).filter (fun o => !o.success)

/-- One worker thread's view of the `self.finished += 1` statement on the
success path: `pc = 0` before the read of `self.finished`, `pc = 1`
between the read and the write (with the value read in `localVal`),
`pc = 2` after the write. -/
structure CounterThread where
  pc : Nat
  localVal : Nat
deriving DecidableEq

/-- The shared `Downloader` counters plus the per-thread states, for a run
in which every item succeeds (so `self.failed` is never incremented). -/
structure CounterState where
  finished : Nat
  failed : Nat
  threads : List CounterThread
deriving DecidableEq

/-- Initial state: counters zero, `n` workers each about to run
`self.finished += 1`. -/
def initState (n : Nat) : CounterState :=
  ⟨0, 0, List.replicate n ⟨0, 0⟩⟩

/-- A thread that has completed its increment. -/
def isDone (t : CounterThread) : Bool := decide (2 ≤ t.pc)

/-- Number of threads that have completed their increment. -/
def doneCount (s : CounterState) : Nat := s.threads.countP isDone

/-- One interleaving step: thread `i` executes its next atomic action.
`self.finished += 1` is a read followed by a separate write, as in the
CPython bytecode (`LOAD_ATTR` / `STORE_ATTR`), with the scheduler free to
interleave other threads in between. -/
def stepThread (s : CounterState) (i : Nat) : CounterState :=
  match s.threads.get? i with
  | none => s
  | some t =>
    if t.pc = 0 then
      { s with threads := s.threads.set i ⟨1, s.finished⟩ }
    else if t.pc = 1 then
      { s with finished := t.localVal + 1,
               threads := s.threads.set i ⟨2, t.localVal⟩ }
    else s

/-- Run a schedule (a list of thread indices) from a state. -/
def runSched (sched : List Nat) (s : CounterState) : CounterState :=
  sched.foldl stepThread s

/-- Every worker has completed its increment. -/
def allDone (s : CounterState) : Bool := s.threads.all isDone

/-- Invariant of the counter machine: `failed` stays zero, `finished`
never exceeds the number of completed increments, and a thread between
its read and its write holds a value at most that number. -/
def CounterInv (s : CounterState) : Prop :=
  s.failed = 0 ∧ s.finished ≤ doneCount s ∧
    ∀ t ∈ s.threads, t.pc = 1 → t.localVal ≤ doneCount s

/-- The catalog row of the spec's end-to-end example. -/
def nhuRow : CatalogRecord :=
  ⟨"NHU05094029.wav".toList, "Wind blowing".toList, "Nature".toList⟩

/-- A filesystem on which no destination exists yet. -/
def noFile : List Char → Bool := fun _ => false

/-- The work item produced for `nhuRow` on an empty filesystem. -/
def nhuItem : WorkItem :=
  ⟨makeURL ("NHU05094029.wav".toList), destPath ("NHU05094029.wav".toList)⟩

/-- An environment whose archive contains no `.wav` member. -/
def noWavEnv : DownloadEnv :=
  ⟨.ok (), .ok ("/tmp/tmpf00".toList),
    fun _ => .ok ["readme.txt".toList, "license.pdf".toList],
    fun _ => .error (.OSError ("unused".toList)),
    fun _ _ => .error (.OSError ("unused".toList))⟩

/-- An environment in which every operation succeeds and the archive
contains one WAV member. -/
def okEnv : DownloadEnv :=
  ⟨.ok (), .ok ("/tmp/tmpf00".toList),
    fun _ => .ok ["NHU05094029.wav".toList],
    fun m => .ok ("sounds/".toList ++ m),
    fun _ _ => .ok ()⟩

/-! ## Lemmas about the sanitizer -/

theorem isKeptChar_subChar (c : Char) : isKeptChar (subChar c) = true := by
  unfold subChar
  split
  · assumption
  · decide

theorem mem_pyStrip {c : Char} {l : List Char} (h : c ∈ pyStrip l) : c ∈ l := by
  unfold pyStrip at h
  rw [List.mem_reverse] at h
  have h1 := (List.dropWhile_sublist pyIsSpace).subset h
  rw [List.mem_reverse] at h1
  exact (List.dropWhile_sublist pyIsSpace).subset h1

theorem sanitize_all_kept (l : List Char) :
    ∀ c ∈ sanitize_path l, isKeptChar c = true := by
  intro c hc
  have hc' : c ∈ l.map subChar := mem_pyStrip hc
  rcases List.mem_map.1 hc' with ⟨a, _, rfl⟩
  exact isKeptChar_subChar a

theorem head?_dropWhile_false {α : Type} {p : α → Bool} {l : List α} {c : α}
    (h : (l.dropWhile p).head? = some c) : p c = false := by
  have h' := List.head?_dropWhile_not p l
  rw [h] at h'
  exact h'

theorem getLast?_dropWhile {α : Type} {p : α → Bool} {l : List α}
    (h : l.dropWhile p ≠ []) : (l.dropWhile p).getLast? = l.getLast? := by
  induction l with
  | nil => simp [List.dropWhile] at h
  | cons a as ih =>
    rw [List.dropWhile_cons] at h ⊢
    by_cases hp : p a = true
    · simp only [hp, if_true] at h ⊢
      rw [ih h]
      cases as with
      | nil => simp [List.dropWhile] at h
      | cons b bs => rw [List.getLast?_cons_cons]
    · simp [hp]

theorem pyStrip_getLast {l : List Char} {c : Char}
    (h : (pyStrip l).getLast? = some c) : pyIsSpace c = false := by
  unfold pyStrip at h
  rw [List.getLast?_reverse] at h
  exact head?_dropWhile_false h

theorem pyStrip_head {l : List Char} {c : Char}
    (h : (pyStrip l).head? = some c) : pyIsSpace c = false := by
  unfold pyStrip at h
  rw [List.head?_reverse] at h
  have hne : (l.dropWhile pyIsSpace).reverse.dropWhile pyIsSpace ≠ [] := by
    intro h0
    rw [h0] at h
    simp at h
  rw [getLast?_dropWhile hne, List.getLast?_reverse] at h
  exact head?_dropWhile_false h

theorem dropWhile_eq_self {α : Type} {p : α → Bool} {l : List α}
    (h : ∀ c, l.head? = some c → p c = false) : l.dropWhile p = l := by
  cases l with
  | nil => rfl
  | cons a as =>
    rw [List.dropWhile_cons]
    simp [h a rfl]

theorem pyStrip_eq_self {l : List Char}
    (hh : ∀ c, l.head? = some c → pyIsSpace c = false)
    (hl : ∀ c, l.getLast? = some c → pyIsSpace c = false) :
    pyStrip l = l := by
  unfold pyStrip
  rw [dropWhile_eq_self hh]
  rw [dropWhile_eq_self (fun c hc => hl c (by rwa [List.head?_reverse] at hc))]
  exact List.reverse_reverse l

theorem map_subChar_eq_self {l : List Char}
    (h : ∀ c ∈ l, isKeptChar c = true) : l.map subChar = l := by
  induction l with
  | nil => rfl
  | cons a as ih =>
    simp only [List.map_cons]
    rw [ih (fun c hc => h c (List.mem_cons_of_mem a hc))]
    have ha : subChar a = a := by
      simp [subChar, h a (List.mem_cons_self a as)]
    rw [ha]

/-! ## Claim theorems about the sanitizer -/

/-- C4: every character of `sanitize_path s` is alphanumeric, an underscore,
hyphen, ampersand, comma, parenthesis, period or space (everything else
having been replaced by an underscore), and the result has no leading or
trailing whitespace. -/
theorem sanitize_charset_and_trim (l : List Char) :
    ((sanitize_path l).all isKeptChar
      && Option.all (fun c => !pyIsSpace c) (sanitize_path l).head?
      && Option.all (fun c => !pyIsSpace c) (sanitize_path l).getLast?) = true := by
  rw [Bool.and_eq_true, Bool.and_eq_true]
  refine ⟨⟨?_, ?_⟩, ?_⟩
  · exact List.all_eq_true.2 (sanitize_all_kept l)
  · cases hh : (sanitize_path l).head? with
    | none => rfl
    | some c =>
      have hc : pyIsSpace c = false := pyStrip_head hh
      simp [Option.all, hc]
  · cases hh : (sanitize_path l).getLast? with
    | none => rfl
    | some c =>
      have hc : pyIsSpace c = false := pyStrip_getLast hh
      simp [Option.all, hc]

/-- C5: `sanitize_path` is idempotent:
`sanitize_path (sanitize_path s) = sanitize_path s` for every input. -/
theorem sanitize_idempotent (l : List Char) :
    sanitize_path (sanitize_path l) = sanitize_path l := by
  have hmap : (sanitize_path l).map subChar = sanitize_path l :=
    map_subChar_eq_self (sanitize_all_kept l)
  show pyStrip ((sanitize_path l).map subChar) = sanitize_path l
  rw [hmap]
  exact pyStrip_eq_self (fun c hc => pyStrip_head hc)
    (fun c hc => pyStrip_getLast hc)

/-! ## Claim theorems about the catalog reader -/

/-- C1: every emitted work item's URL is the fixed base followed by the raw
location, `.zip`, `?download&rename=`, and the raw location again; the
sanitized `rename_part` does not flow into the URL. -/
theorem url_construction (exists_ : List Char → Bool) (row : CatalogRecord)
    (item : WorkItem) (h : processRow exists_ row = some item) :
    item.url =
      "https://sound-effects-media.bbcrewind.co.uk/zip/".toList
        ++ row.location ++ ".zip".toList ++ "?download&rename=".toList
        ++ row.location := by
  unfold processRow at h
  by_cases he : exists_ (destPath row.location) = true
  · simp [he] at h
  · rw [if_neg he] at h
    injection h with h
    rw [← h]
    simp [makeURL, List.append_assoc]

/-- Witness for C1 at the spec's example row: the emitted URL is the
expected literal. -/
theorem url_construction_witness :
    processRow noFile nhuRow =
      some ⟨makeURL nhuRow.location, destPath nhuRow.location⟩ ∧
    (WorkItem.mk (makeURL nhuRow.location) (destPath nhuRow.location)).url =
      ("https://sound-effects-media.bbcrewind.co.uk/zip/" ++
        "NHU05094029.wav.zip?download&rename=NHU05094029.wav").toList := by
  constructor
  · rfl
  · have h := url_construction noFile nhuRow
      ⟨makeURL nhuRow.location, destPath nhuRow.location⟩ rfl
    rw [h]
    rfl

/-- C3: the destination path of every emitted work item is `sounds/` joined
with the raw location, and a record whose destination already exists
yields no work item. -/
theorem dest_path_and_skip (exists_ : List Char → Bool) (row : CatalogRecord) :
    (exists_ ("sounds/".toList ++ row.location) = true →
      get_samples exists_ [row] = []) ∧
    (∀ item, processRow exists_ row = some item →
      item.final_wav_path = "sounds/".toList ++ row.location) := by
  constructor
  · intro he
    have he' : exists_ (destPath row.location) = true := he
    simp [get_samples, processRow, he']
  · intro item h
    unfold processRow at h
    by_cases he : exists_ (destPath row.location) = true
    · simp [he] at h
    · rw [if_neg he] at h
      injection h with h
      rw [← h]
      rfl

/-- Witness for C3: a record whose destination exists is skipped, and the
example row's work item targets `sounds/NHU05094029.wav`. -/
theorem dest_path_and_skip_witness :
    get_samples (fun _ => true) [nhuRow] = [] ∧
    (WorkItem.mk (makeURL nhuRow.location) (destPath nhuRow.location)).final_wav_path =
      "sounds/NHU05094029.wav".toList := by
  constructor
  · exact (dest_path_and_skip (fun _ => true) nhuRow).1 rfl
  · have h := (dest_path_and_skip noFile nhuRow).2
      ⟨makeURL nhuRow.location, destPath nhuRow.location⟩ rfl
    rw [h]
    rfl

/-- C6: the sanitized description is truncated to at most
`MAX_FILENAME_LENGTH - 4 = 139` characters, so the filename
(description plus `.wav`) never exceeds 143 characters. -/
theorem description_truncation_bound (row : CatalogRecord) :
    max_description_length = 139 ∧
    (descriptionOf row).length ≤ max_description_length ∧
    MAX_FILENAME_LENGTH = 143 ∧
    (filenameOf row).length ≤ MAX_FILENAME_LENGTH := by
  have h139 : max_description_length = 139 := by decide
  have hM : MAX_FILENAME_LENGTH = 143 := by decide
  have hw : wav_suffix.length = 4 := by decide
  have hd : (descriptionOf row).length ≤ max_description_length := by
    unfold descriptionOf
    rw [List.length_take]
    exact min_le_left _ _
  refine ⟨h139, hd, hM, ?_⟩
  unfold filenameOf
  rw [List.length_append]
  omega

/-! ## Lemmas and claim theorems about the fetch-extract unit -/

theorem download_cases (env : DownloadEnv) (sample : WorkItem) :
    ((download env sample).1.success = true ∧
      (download env sample).1.filepath = none ∧
      (download env sample).1.exc = none) ∨
    ((download env sample).1.success = false ∧
      (download env sample).1.filepath = some sample.final_wav_path ∧
      ∃ e, (download env sample).1.exc = some e) := by
  unfold download
  repeat' split
  all_goals simp

/-- C2: `download` always returns a normal result tuple: either the success
tuple, or — for any failing step — the failure tuple carrying the item's
destination path and the underlying error; no error propagates. -/
theorem download_total_boundary (env : DownloadEnv) (sample : WorkItem) :
    ((download env sample).1.success = true ∧
      (download env sample).1.filepath = none ∧
      (download env sample).1.exc = none) ∨
    ((download env sample).1.success = false ∧
      (download env sample).1.filepath = some sample.final_wav_path ∧
      ∃ e, (download env sample).1.exc = some e) :=
  download_cases env sample

/-- C7: when the archive opens but contains no member ending in `.wav`
(case-insensitively), `download` fails with the `No WAV found in downloaded
zip` error, the failure tuple carries the destination path, and the only
filesystem operation performed is the directory creation — nothing is
extracted or renamed, so no file appears at the destination. -/
theorem no_wav_failure (env : DownloadEnv) (sample : WorkItem)
    (t : List Char) (names : List (List Char))
    (hm : env.mkdirResult = .ok ()) (hr : env.retrieveResult = .ok t)
    (hn : env.namelistResult t = .ok names)
    (hw : wavMembersOf names = []) :
    (download env sample).1 =
      ⟨false, some sample.final_wav_path, some (.RuntimeError noWavMsg)⟩ ∧
    ∀ eff ∈ (download env sample).2, ∃ d, eff = FsEffect.mkdirParents d := by
  simp only [download, hm, hr, hn, hw]
  simp

/-- Witness for C7: a concrete archive with only non-WAV entries. -/
theorem no_wav_failure_witness :
    (download noWavEnv nhuItem).1 =
      ⟨false, some nhuItem.final_wav_path, some (.RuntimeError noWavMsg)⟩ ∧
    ∀ eff ∈ (download noWavEnv nhuItem).2, ∃ d, eff = FsEffect.mkdirParents d :=
  no_wav_failure noWavEnv nhuItem ("/tmp/tmpf00".toList)
    ["readme.txt".toList, "license.pdf".toList] rfl rfl rfl (by decide)

/-- C8 counterexample: a fully successful run returns the tuple
`(True, None, None)`, which does not carry the item's destination path. -/
theorem outcome_path_counterexample :
    (download okEnv nhuItem).1.success = true ∧
    ¬ (download okEnv nhuItem).1.filepath = some nhuItem.final_wav_path := by
  decide

/-- C8 amended: every failed outcome carries the item's destination path,
while a successful outcome carries `None` in the path slot. -/
theorem outcome_path_amended (env : DownloadEnv) (sample : WorkItem) :
    ((download env sample).1.success = false →
      (download env sample).1.filepath = some sample.final_wav_path) ∧
    ((download env sample).1.success = true →
      (download env sample).1.filepath = none) := by
  rcases download_cases env sample with ⟨h1, h2, _⟩ | ⟨h1, h2, _⟩
  · refine ⟨fun hs => ?_, fun _ => h2⟩
    rw [h1] at hs
    exact absurd hs (by simp)
  · refine ⟨fun _ => h2, fun hs => ?_⟩
    rw [h1] at hs
    exact absurd hs (by simp)

/-- Witness for C8 amended, at a failing and at a succeeding environment. -/
theorem outcome_path_amended_witness :
    (download noWavEnv nhuItem).1.filepath = some nhuItem.final_wav_path ∧
    (download okEnv nhuItem).1.filepath = none :=
  ⟨(outcome_path_amended noWavEnv nhuItem).1 (by decide),
    (outcome_path_amended okEnv nhuItem).2 (by decide)⟩

/-- C10: the failure report enumerates failed outcomes in catalog (input)
order: the failed entries are exactly the outcomes of the failing items,
and their reported paths are those items' destination paths, both in the
order of the input list (because `Pool.map` returns results in input
order). -/
theorem failures_in_catalog_order (env : WorkItem → DownloadEnv)
    (samples : List WorkItem) :
    failedResults env samples =
      (samples.filter (fun s => !(download (env s) s).1.success)).map
        (fun s => (download (env s) s).1) ∧
    (failedResults env samples).map Outcome.filepath =
      (samples.filter (fun s => !(download (env s) s).1.success)).map
        (fun s => some s.final_wav_path) := by
  have h1 : failedResults env samples =
      (samples.filter (fun s => !(download (env s) s).1.success)).map
        (fun s => (download (env s) s).1) := by
    unfold failedResults resultsOf
    rw [List.filter_map]
    rfl
  refine ⟨h1, ?_⟩
  rw [h1, List.map_map]
  apply List.map_congr_left
  intro s hs
  have hfail : (!(download (env s) s).1.success) = true :=
    (List.mem_filter.1 hs).2
  rcases download_cases (env s) s with ⟨h2, _, _⟩ | ⟨_, h2, _⟩
  · rw [h2] at hfail
    simp at hfail
  · exact h2

/-! ## Lemmas and claim theorems about the shared counters -/

theorem countP_set {α : Type} (p : α → Bool) :
    ∀ (l : List α) (i : Nat) (a b : α), l.get? i = some a →
      (l.set i b).countP p + (if p a then 1 else 0) =
        l.countP p + (if p b then 1 else 0) := by
  intro l
  induction l with
  | nil =>
    intro i a b h
    simp at h
  | cons x xs ih =>
    intro i a b h
    cases i with
    | zero =>
      rw [List.get?_cons_zero] at h
      injection h with h
      subst h
      simp only [List.set, List.countP_cons]
      omega
    | succ j =>
      rw [List.get?_cons_succ] at h
      simp only [List.set, List.countP_cons]
      have hrec := ih j a b h
      omega

theorem mem_of_mem_set {α : Type} :
    ∀ {l : List α} {i : Nat} {b x : α}, x ∈ l.set i b → x = b ∨ x ∈ l := by
  intro l
  induction l with
  | nil =>
    intro i b x h
    simp [List.set] at h
  | cons a as ih =>
    intro i b x h
    cases i with
    | zero =>
      rcases List.mem_cons.1 h with h | h
      · exact Or.inl h
      · exact Or.inr (List.mem_cons_of_mem a h)
    | succ j =>
      rcases List.mem_cons.1 h with h | h
      · subst h
        exact Or.inr (List.mem_cons_self _ _)
      · rcases ih h with h | h
        · exact Or.inl h
        · exact Or.inr (List.mem_cons_of_mem a h)

theorem stepThread_none (s : CounterState) (i : Nat)
    (hg : s.threads.get? i = none) : stepThread s i = s := by
  unfold stepThread
  rw [hg]

theorem stepThread_read (s : CounterState) (i : Nat) (t : CounterThread)
    (hg : s.threads.get? i = some t) (h0 : t.pc = 0) :
    stepThread s i = { s with threads := s.threads.set i ⟨1, s.finished⟩ } := by
  unfold stepThread
  rw [hg]
  simp [h0]

theorem stepThread_write (s : CounterState) (i : Nat) (t : CounterThread)
    (hg : s.threads.get? i = some t) (h1 : t.pc = 1) :
    stepThread s i =
      { s with finished := t.localVal + 1,
               threads := s.threads.set i ⟨2, t.localVal⟩ } := by
  unfold stepThread
  rw [hg]
  simp [h1]

theorem stepThread_done (s : CounterState) (i : Nat) (t : CounterThread)
    (hg : s.threads.get? i = some t) (h0 : t.pc ≠ 0) (h1 : t.pc ≠ 1) :
    stepThread s i = s := by
  unfold stepThread
  rw [hg]
  simp [h0, h1]

theorem counterInv_init (n : Nat) : CounterInv (initState n) := by
  refine ⟨rfl, Nat.zero_le _, ?_⟩
  intro t ht h1
  simp only [initState] at ht
  rw [List.mem_replicate] at ht
  rw [ht.2] at h1
  simp at h1

theorem counterInv_step (s : CounterState) (i : Nat) (h : CounterInv s) :
    CounterInv (stepThread s i) := by
  obtain ⟨hf, hfin, hloc⟩ := h
  cases hg : s.threads.get? i with
  | none =>
    rw [stepThread_none s i hg]
    exact ⟨hf, hfin, hloc⟩
  | some t =>
    have htmem : t ∈ s.threads := List.get?_mem hg
    by_cases h0 : t.pc = 0
    · rw [stepThread_read s i t hg h0]
      have ha : isDone t = false := by simp [isDone, h0]
      have hb : isDone ⟨1, s.finished⟩ = false := by simp [isDone]
      have hcs := countP_set isDone s.threads i t ⟨1, s.finished⟩ hg
      rw [ha, hb] at hcs
      simp at hcs
      have hdc : doneCount { s with threads := s.threads.set i ⟨1, s.finished⟩ } =
          doneCount s := hcs
      refine ⟨hf, ?_, ?_⟩
      · rw [hdc]
        exact hfin
      · intro t' ht' h1'
        rw [hdc]
        rcases mem_of_mem_set ht' with rfl | ht'
        · exact hfin
        · exact hloc t' ht' h1'
    · by_cases h1 : t.pc = 1
      · rw [stepThread_write s i t hg h1]
        have ha : isDone t = false := by simp [isDone, h1]
        have hb : isDone ⟨2, t.localVal⟩ = true := by simp [isDone]
        have hcs := countP_set isDone s.threads i t ⟨2, t.localVal⟩ hg
        rw [ha, hb] at hcs
        simp at hcs
        have hdc :
            doneCount
              { s with finished := t.localVal + 1,
                       threads := s.threads.set i ⟨2, t.localVal⟩ } =
              doneCount s + 1 := hcs
        refine ⟨hf, ?_, ?_⟩
        · rw [hdc]
          have hl := hloc t htmem h1
          show t.localVal + 1 ≤ doneCount s + 1
          omega
        · intro t' ht' h1'
          rw [hdc]
          rcases mem_of_mem_set ht' with rfl | ht'
          · simp at h1'
          · exact Nat.le_trans (hloc t' ht' h1') (Nat.le_succ _)
      · rw [stepThread_done s i t hg h0 h1]
        exact ⟨hf, hfin, hloc⟩

theorem counterInv_run (sched : List Nat) (s : CounterState)
    (h : CounterInv s) : CounterInv (runSched sched s) := by
  induction sched generalizing s with
  | nil => exact h
  | cons i rest ih => exact ih (stepThread s i) (counterInv_step s i h)

theorem stepThread_length (s : CounterState) (i : Nat) :
    (stepThread s i).threads.length = s.threads.length := by
  cases hg : s.threads.get? i with
  | none => rw [stepThread_none s i hg]
  | some t =>
    by_cases h0 : t.pc = 0
    · rw [stepThread_read s i t hg h0]
      exact List.length_set ..
    · by_cases h1 : t.pc = 1
      · rw [stepThread_write s i t hg h1]
        exact List.length_set ..
      · rw [stepThread_done s i t hg h0 h1]

theorem runSched_length (sched : List Nat) (s : CounterState) :
    (runSched sched s).threads.length = s.threads.length := by
  induction sched generalizing s with
  | nil => rfl
  | cons i rest ih =>
    show (runSched rest (stepThread s i)).threads.length = _
    rw [ih, stepThread_length]

/-- C9 amended: with every item succeeding, `failed` stays `0` under every
interleaving of the worker threads, and `finished` never exceeds the item
count; but the unsynchronized `finished += 1` gives no lower bound — an
increment can be lost (see the counterexample). -/
theorem counters_amended (sched : List Nat) (n : Nat) :
    (runSched sched (initState n)).failed = 0 ∧
    (runSched sched (initState n)).finished ≤ n := by
  have h := counterInv_run sched (initState n) (counterInv_init n)
  refine ⟨h.1, Nat.le_trans h.2.1 ?_⟩
  have hlen : (runSched sched (initState n)).threads.length = n := by
    rw [runSched_length]
    simp [initState]
  calc doneCount (runSched sched (initState n))
      ≤ (runSched sched (initState n)).threads.length :=
        List.countP_le_length isDone
    _ = n := hlen

/-- C9 counterexample: with two workers both succeeding, the interleaving
read-read-write-write of the unsynchronized `finished += 1` completes both
threads yet records `finished = 1`: an increment is lost, so the counters
are not maintained with a thread-safe accumulation discipline and the
final count can fall short of N. -/
theorem lost_update_counterexample :
    allDone (runSched [0, 1, 0, 1] (initState 2)) = true ∧
    (runSched [0, 1, 0, 1] (initState 2)).failed = 0 ∧
    (runSched [0, 1, 0, 1] (initState 2)).finished = 1 ∧
    ¬ (runSched [0, 1, 0, 1] (initState 2)).finished = 2 := by
  decide

end BBC
